import Mathlib

/-!
Shallow embedding of the `ModemHandler` protocol engine from
`src/src/CM01-SARA-R.cpp` (CM01-SARA-R repository).

Strings of the source (Arduino `String`) are modelled as `List Char`.
The two FreeRTOS queues are modelled as bounded FIFO lists; `xQueueSend`
with a zero timeout is `tryEnqueue` (drop when full).  The response
collector's timing is modelled with explicit wall-clock times: the
environment is a time-stamped list of lines that will arrive on the
response queue, and a blocking `xQueueReceive` with budget `t` started
at time `now` yields the next line iff it arrives no later than
`now + t`.
-/

namespace CM01

/-- `String.indexOf(ch)` of Arduino: index of the first occurrence of
`ch`, `none` when absent (the source's `-1`). -/
def charIndex (ch : Char) : List Char → Option Nat
  | [] => none
  | c :: cs => if c = ch then some 0 else (charIndex ch cs).map (· + 1)

/-- `line.indexOf(ch) != -1` of the source. -/
def containsChar (s : List Char) (ch : Char) : Bool :=
  (charIndex ch s).isSome

/-- Prompt state: `enablePrompt` / `promptCharacter` members of `ModemHandler`. -/
structure PromptState where
  enablePrompt : Bool
  promptCharacter : Char

/-- One criterion check inside the loop of `isEndOfResponse`
(`CM01-SARA-R.cpp:421-432`): with a `'*'` in the criterion, prefix match
against `criteria.substring(0, criteria.indexOf('*'))`; without one,
full equality. -/
def matchesCriterion (line crit : List Char) : Bool :=
  match charIndex '*' crit with
  | some i => (crit.take i).isPrefixOf line
  | none => line == crit

/-- `ModemHandler::isEndOfResponse` (`CM01-SARA-R.cpp:416-434`). -/
def isEndOfResponse (ps : PromptState) (criteria : List (List Char)) (line : List Char) : Bool :=
  if ps.enablePrompt && containsChar line ps.promptCharacter then
    true
  else
    criteria.any (matchesCriterion line)

/-- `xQueueSend(queue, &linePtr, 0)` on a queue created with capacity
`cap`: appends when there is room, otherwise drops the new element
without blocking. -/
def tryEnqueue (cap : Nat) (q : List (List Char)) (x : List Char) : List (List Char) :=
  if q.length < cap then q ++ [x] else q

/-- One byte of the framing loop inside `ModemHandler::readFromModemTask`
(`CM01-SARA-R.cpp:252-271`): returns the new accumulator and the line
delivered to `processLine`, if any. -/
def readByte (ps : PromptState) (buffer : List Char) (c : Char) :
    List Char × Option (List Char) :=
  if c == '\r' || c == '\n' then
    if buffer.isEmpty then (buffer, none) else ([], some buffer)
  else if c == ps.promptCharacter && ps.enablePrompt then
    ([], some (buffer ++ [c]))
  else
    (buffer ++ [c], none)

/-- The framing loop over an available byte sequence: final accumulator
and the lines delivered, in order. -/
def readBytes (ps : PromptState) (buffer : List Char) : List Char → List Char × List (List Char)
  | [] => (buffer, [])
  | c :: cs =>
    let r := readByte ps buffer c
    let rest := readBytes ps r.1 cs
    (rest.1, r.2.toList ++ rest.2)

/-- The two bounded queues of `ModemHandler`. -/
structure QueueState where
  responseQueue : List (List Char)
  asyncEventQueue : List (List Char)

/-- Outcome of classifying one line: the queues afterwards and the
arguments of the synchronous `asyncCallback` invocations, in order. -/
structure ClassifyResult where
  queues : QueueState
  callbackCalls : List (List Char)

/-- The `for` loop of `ModemHandler::processLine`
(`CM01-SARA-R.cpp:297-311`): scan the prefixes in declared order; on
the first prefix the line starts with, invoke the callback (when set)
and try to enqueue on the async event queue, then return; if none
matches, try to enqueue on the response queue. -/
def classifyLoop (respCap asyncCap : Nat) (hasCallback : Bool) (qs : QueueState)
    (line : List Char) : List (List Char) → ClassifyResult
  | [] => ⟨⟨tryEnqueue respCap qs.responseQueue line, qs.asyncEventQueue⟩, []⟩
  | p :: ps =>
    if p.isPrefixOf line then
      ⟨⟨qs.responseQueue, tryEnqueue asyncCap qs.asyncEventQueue line⟩,
        if hasCallback then [line] else []⟩
    else
      classifyLoop respCap asyncCap hasCallback qs line ps

/-- `ModemHandler::processLine` (`CM01-SARA-R.cpp:297-311`). -/
def processLine (respCap asyncCap : Nat) (prefixes : List (List Char))
    (hasCallback : Bool) (qs : QueueState) (line : List Char) : ClassifyResult :=
  classifyLoop respCap asyncCap hasCallback qs line prefixes

/-- A line scheduled to arrive on the response queue at wall-clock time
`time` (milliseconds). -/
structure Arrival where
  time : Nat
  line : List Char

/-- Result of the collector loop shared by `sendATCommandWithResponse`
and `getResponses`: the collected lines, whether a line satisfied
`isEndOfResponse` (the in-loop `return true` paths), the wall-clock
time at which the loop finished, and the arrivals not yet consumed. -/
structure CollectResult where
  lines : List (List Char)
  completed : Bool
  finish : Nat
  remaining : List Arrival

/-- The polling loop shared by `ModemHandler::sendATCommandWithResponse`
(`CM01-SARA-R.cpp:337-347`) and `ModemHandler::getResponses`
(`CM01-SARA-R.cpp:389-398`).  The loop guard is
`millis() - startTime < timeoutMs` with `now` the current `millis()`.
The body embeds `getResponse` (`CM01-SARA-R.cpp:142-150`):
`xQueueReceive(responseQueue, …, pdMS_TO_TICKS(timeoutMs))` started at
`now` blocks until the next arrival when that arrival is at or before
`now + timeoutMs`, and otherwise times out at `now + timeoutMs`, upon
which the loop breaks. -/
def collectLoop (ps : PromptState) (criteria : List (List Char))
    (startTime timeoutMs : Nat) :
    Nat → List Arrival → List (List Char) → CollectResult
  | now, pending, acc =>
    if now - startTime < timeoutMs then
      match pending with
      | [] => ⟨acc, false, now + timeoutMs, []⟩
      | a :: rest =>
        if a.time ≤ now + timeoutMs then
          if isEndOfResponse ps criteria a.line then
            ⟨acc ++ [a.line], true, max now a.time, rest⟩
          else
            collectLoop ps criteria startTime timeoutMs (max now a.time) rest (acc ++ [a.line])
        else ⟨acc, false, now + timeoutMs, a :: rest⟩
    else ⟨acc, false, now, pending⟩

/-- Observable outcome of one collector call: the returned boolean, the
caller's vector afterwards (`none` models a null pointer), the command
strings written to the serial port by the call, the wall-clock time at
which the call returned, and the unconsumed arrivals. -/
structure CallResult where
  result : Bool
  vector : Option (List (List Char))
  transmitted : List (List Char)
  finish : Nat
  remaining : List Arrival

/-- `ModemHandler::sendATCommandWithResponse` (`CM01-SARA-R.cpp:328-349`).
`responses` is the caller's vector (`none` for a null pointer; `some v`
for a pointer to a vector currently holding `v`), `startTime` the value
of `millis()` at entry, `pending` the time-stamped lines that will
arrive on the response queue.  On a null pointer the call returns
`false` before transmitting; otherwise the command is transmitted, the
vector cleared, and the loop run; at the end the source returns
`!responses->empty()`. -/
def sendATCommandWithResponse (ps : PromptState) (criteria : List (List Char))
    (command : List Char) (responses : Option (List (List Char)))
    (timeoutMs startTime : Nat) (pending : List Arrival) : CallResult :=
  match responses with
  | none => ⟨false, none, [], startTime, pending⟩
  | some _ =>
    let r := collectLoop ps criteria startTime timeoutMs startTime pending []
    ⟨if r.completed then true else !r.lines.isEmpty, some r.lines, [command], r.finish, r.remaining⟩

/-- `ModemHandler::getResponses` (`CM01-SARA-R.cpp:383-400`).  Same loop
as `sendATCommandWithResponse` but with no command transmitted and a
plain `return false` after the loop. -/
def getResponses (ps : PromptState) (criteria : List (List Char))
    (responses : Option (List (List Char)))
    (timeoutMs startTime : Nat) (pending : List Arrival) : CallResult :=
  match responses with
  | none => ⟨false, none, [], startTime, pending⟩
  | some _ =>
    let r := collectLoop ps criteria startTime timeoutMs startTime pending []
    ⟨r.completed, some r.lines, [], r.finish, r.remaining⟩

/-- The prefix of a criterion preceding its first wildcard `'*'`. -/
def wildcardPrefix (crit : List Char) : List Char :=
  crit.takeWhile (fun c => !(c == '*'))

/-- Spec-side criterion match (§4.3 of the spec): a criterion holding a
wildcard marker matches when the line starts with the substring
preceding the marker; a criterion without a marker matches only on
full-line equality. -/
def specMatchesCriterion (line crit : List Char) : Bool :=
  if crit.contains '*' then (wildcardPrefix crit).isPrefixOf line
  else line == crit

/-- Spec-side end-of-response matcher (§4.3 of the spec): prompt mode and
a line containing the prompt character anywhere unconditionally ends the
response; otherwise some criterion must match. -/
def specIsEndOfResponse (ps : PromptState) (criteria : List (List Char)) (line : List Char) : Bool :=
  (ps.enablePrompt && line.contains ps.promptCharacter) || criteria.any (specMatchesCriterion line)

theorem charIndex_isSome (ch : Char) (s : List Char) :
    (charIndex ch s).isSome = true ↔ ch ∈ s := by
  induction s with
  | nil => simp [charIndex]
  | cons c cs ih =>
    by_cases h : c = ch
    · subst h
      simp [charIndex]
    · simp [charIndex, h, ih, Ne.symm h]

theorem charIndex_take (ch : Char) (s : List Char) (i : Nat)
    (h : charIndex ch s = some i) :
    s.take i = s.takeWhile (fun c => !(c == ch)) := by
  induction s generalizing i with
  | nil => simp [charIndex] at h
  | cons c cs ih =>
    by_cases hc : c = ch
    · subst hc
      simp [charIndex] at h
      subst h
      simp [List.takeWhile]
    · simp [charIndex, hc] at h
      obtain ⟨j, hj, hij⟩ := h
      subst hij
      have hne : (c == ch) = false := by simp [hc]
      simp [List.take_succ_cons, List.takeWhile_cons, hne, ih j hj]

theorem matchesCriterion_eq_spec (line crit : List Char) :
    matchesCriterion line crit = specMatchesCriterion line crit := by
  unfold matchesCriterion specMatchesCriterion
  cases h : charIndex '*' crit with
  | none =>
    have hm : '*' ∉ crit := by
      rw [← charIndex_isSome, h]
      simp
    simp [hm]
  | some i =>
    have hm : '*' ∈ crit := by
      rw [← charIndex_isSome, h]
      rfl
    simp [hm, wildcardPrefix, charIndex_take '*' crit i h]

theorem containsChar_eq_contains (s : List Char) (ch : Char) :
    containsChar s ch = s.contains ch := by
  unfold containsChar
  rw [Bool.eq_iff_iff]
  simp [charIndex_isSome, List.contains, List.elem_iff]

theorem isEndOfResponse_eq_spec (ps : PromptState) (criteria : List (List Char))
    (line : List Char) :
    isEndOfResponse ps criteria line = specIsEndOfResponse ps criteria line := by
  have hfun : matchesCriterion line = specMatchesCriterion line :=
    funext (matchesCriterion_eq_spec line)
  unfold isEndOfResponse specIsEndOfResponse
  rw [containsChar_eq_contains, hfun]
  cases hb : ps.enablePrompt && line.contains ps.promptCharacter <;> simp [hb]

/-- C4: the end-of-response matcher returns true iff either prompt mode
is enabled and the line contains the prompt character anywhere, or some
criterion matches — wildcard criteria by the prefix before the marker,
plain criteria by full-line equality; otherwise it returns false.  In
particular `"+CME ERROR:*"` matches `"+CME ERROR: 10"` but not
`"+CME ERRORS: 10"`. -/
theorem end_matcher_spec_conformance :
    (∀ ps criteria line, isEndOfResponse ps criteria line = specIsEndOfResponse ps criteria line)
    ∧ isEndOfResponse ⟨false, '>'⟩ ["+CME ERROR:*".toList] "+CME ERROR: 10".toList = true
    ∧ isEndOfResponse ⟨false, '>'⟩ ["+CME ERROR:*".toList] "+CME ERRORS: 10".toList = false :=
  ⟨isEndOfResponse_eq_spec, by decide, by decide⟩

/-- C10: a criterion containing `'*'` is compared only through the
substring before its first `'*'`: the line matches iff it starts with
that substring, everything after the marker being ignored; `"A*B"`
matches every line starting with `"A"` and `"*"` matches every line. -/
theorem wildcard_prefix_only :
    (∀ crit line, crit.contains '*' = true →
        matchesCriterion line crit = (crit.takeWhile (fun c => !(c == '*'))).isPrefixOf line)
    ∧ (∀ line, matchesCriterion line "A*B".toList = ("A".toList).isPrefixOf line)
    ∧ (∀ line, matchesCriterion line "*".toList = true) := by
  refine ⟨fun crit line h => ?_, fun line => ?_, fun line => ?_⟩
  · have hm : '*' ∈ crit := by simpa using h
    rw [matchesCriterion_eq_spec]
    unfold specMatchesCriterion wildcardPrefix
    simp [hm]
  · have h : charIndex '*' "A*B".toList = some 1 := by decide
    unfold matchesCriterion
    rw [h]
    show (List.take 1 "A*B".toList).isPrefixOf line = ("A".toList).isPrefixOf line
    rfl
  · have h : charIndex '*' "*".toList = some 0 := by decide
    unfold matchesCriterion
    rw [h]
    show (List.take 0 "*".toList).isPrefixOf line = true
    simp

/-- Witness for C10 at a concrete wildcard criterion. -/
theorem wildcard_prefix_only_witness :
    matchesCriterion "X123".toList "X*Q".toList =
      (("X*Q".toList).takeWhile (fun c => !(c == '*'))).isPrefixOf "X123".toList :=
  wildcard_prefix_only.1 "X*Q".toList "X123".toList (by decide)

theorem readByte_delim (ps : PromptState) (buffer : List Char) (c : Char)
    (hc : c = '\r' ∨ c = '\n') :
    readByte ps buffer c = if buffer.isEmpty then (buffer, none) else ([], some buffer) := by
  rcases hc with h | h <;> subst h <;> simp [readByte]

theorem readByte_accum (ps : PromptState) (buffer : List Char) (c : Char)
    (h1 : c ≠ '\r') (h2 : c ≠ '\n')
    (h3 : ps.enablePrompt = true → c ≠ ps.promptCharacter) :
    readByte ps buffer c = (buffer ++ [c], none) := by
  have b1 : (c == '\r') = false := by simp [h1]
  have b2 : (c == '\n') = false := by simp [h2]
  have b3 : (c == ps.promptCharacter && ps.enablePrompt) = false := by
    cases he : ps.enablePrompt
    · simp
    · simp [h3 he]
  simp [readByte, b1, b2, b3]

theorem readByte_prompt (ps : PromptState) (buffer : List Char)
    (he : ps.enablePrompt = true)
    (h1 : ps.promptCharacter ≠ '\r') (h2 : ps.promptCharacter ≠ '\n') :
    readByte ps buffer ps.promptCharacter = ([], some (buffer ++ [ps.promptCharacter])) := by
  have b1 : (ps.promptCharacter == '\r') = false := by simp [h1]
  have b2 : (ps.promptCharacter == '\n') = false := by simp [h2]
  simp [readByte, b1, b2, he]

theorem readBytes_no_delims (ps : PromptState) (input : List Char)
    (h : ∀ c ∈ input, c ≠ '\r' ∧ c ≠ '\n' ∧ (ps.enablePrompt = true → c ≠ ps.promptCharacter)) :
    ∀ buffer : List Char, (readBytes ps buffer input).2 = [] := by
  induction input with
  | nil => intro buffer; rfl
  | cons c cs ih =>
    intro buffer
    obtain ⟨h1, h2, h3⟩ := h c (List.mem_cons_self c cs)
    have hr := readByte_accum ps buffer c h1 h2 h3
    have ihr := ih (fun x hx => h x (List.mem_cons_of_mem c hx)) (buffer ++ [c])
    simp [readBytes, hr, ihr]

/-- Claim C5: in the line framer, a CR or LF byte delivers the
accumulator as a completed line exactly when the accumulator is
non-empty (delimiter excluded) and resets it; with prompt mode enabled
a (non-delimiter) byte equal to the prompt character is appended and
the accumulator delivered immediately, prompt character included; every
other byte only accumulates, so input free of CR, LF and prompt bytes
delivers no line. -/
theorem framer_line_delivery :
    (∀ ps (buffer : List Char) c, (c = '\r' ∨ c = '\n') → buffer ≠ [] →
        readByte ps buffer c = ([], some buffer))
    ∧ (∀ ps (c : Char), (c = '\r' ∨ c = '\n') → readByte ps [] c = ([], none))
    ∧ (∀ ps (buffer : List Char), ps.enablePrompt = true →
        ps.promptCharacter ≠ '\r' → ps.promptCharacter ≠ '\n' →
        readByte ps buffer ps.promptCharacter = ([], some (buffer ++ [ps.promptCharacter])))
    ∧ (∀ ps (buffer : List Char) c, c ≠ '\r' → c ≠ '\n' →
        (ps.enablePrompt = true → c ≠ ps.promptCharacter) →
        readByte ps buffer c = (buffer ++ [c], none))
    ∧ (∀ ps (buffer input : List Char),
        (∀ c ∈ input, c ≠ '\r' ∧ c ≠ '\n' ∧ (ps.enablePrompt = true → c ≠ ps.promptCharacter)) →
        (readBytes ps buffer input).2 = []) := by
  refine ⟨fun ps buffer c hc hb => ?_, fun ps c hc => ?_,
    fun ps buffer he h1 h2 => readByte_prompt ps buffer he h1 h2,
    fun ps buffer c h1 h2 h3 => readByte_accum ps buffer c h1 h2 h3,
    fun ps buffer input h => readBytes_no_delims ps input h buffer⟩
  · rw [readByte_delim ps buffer c hc]
    simp [hb]
  · rw [readByte_delim ps [] c hc]
    simp

/-- Witness for C5 at concrete bytes and buffers. -/
theorem framer_line_delivery_witness :
    readByte ⟨true, '>'⟩ "AT".toList '\r' = ([], some "AT".toList)
    ∧ readByte ⟨true, '>'⟩ [] '\n' = ([], none)
    ∧ readByte ⟨true, '>'⟩ "AT+CMD".toList '>' = ([], some ("AT+CMD".toList ++ ['>']))
    ∧ readByte ⟨true, '>'⟩ "A".toList 'B' = ("A".toList ++ ['B'], none)
    ∧ (readBytes ⟨true, '>'⟩ [] "ABC".toList).2 = [] :=
  ⟨framer_line_delivery.1 ⟨true, '>'⟩ "AT".toList '\r' (Or.inl rfl) (by decide),
   framer_line_delivery.2.1 ⟨true, '>'⟩ '\n' (Or.inr rfl),
   framer_line_delivery.2.2.1 ⟨true, '>'⟩ "AT+CMD".toList rfl (by decide) (by decide),
   framer_line_delivery.2.2.2.1 ⟨true, '>'⟩ "A".toList 'B' (by decide) (by decide)
     (fun _ => by decide),
   framer_line_delivery.2.2.2.2 ⟨true, '>'⟩ [] "ABC".toList (by decide)⟩

theorem classifyLoop_matched (respCap asyncCap : Nat) (hasCallback : Bool) (qs : QueueState)
    (line : List Char) (prefixes : List (List Char))
    (h : prefixes.any (fun p => p.isPrefixOf line) = true) :
    classifyLoop respCap asyncCap hasCallback qs line prefixes =
      ⟨⟨qs.responseQueue, tryEnqueue asyncCap qs.asyncEventQueue line⟩,
        if hasCallback then [line] else []⟩ := by
  induction prefixes with
  | nil => simp at h
  | cons p ps ih =>
    by_cases hp : p.isPrefixOf line = true
    · simp [classifyLoop, hp]
    · simp only [List.any_cons, Bool.or_eq_true] at h
      rcases h with h | h
      · exact absurd h hp
      · simp [classifyLoop, hp, ih h]

theorem classifyLoop_unmatched (respCap asyncCap : Nat) (hasCallback : Bool) (qs : QueueState)
    (line : List Char) (prefixes : List (List Char))
    (h : prefixes.any (fun p => p.isPrefixOf line) = false) :
    classifyLoop respCap asyncCap hasCallback qs line prefixes =
      ⟨⟨tryEnqueue respCap qs.responseQueue line, qs.asyncEventQueue⟩, []⟩ := by
  induction prefixes with
  | nil => rfl
  | cons p ps ih =>
    simp only [List.any_cons, Bool.or_eq_false_iff] at h
    simp [classifyLoop, h.1, ih h.2]

/-- Claim C6: the classifier routes every completed line to exactly one
queue: if some async prefix (first match in declared order) starts the
line, the notification hook is invoked with the line (when registered)
and the line is enqueued non-blockingly on the async event queue, the
response queue untouched; otherwise it is enqueued non-blockingly on
the response queue, the async queue untouched and the hook silent. -/
theorem classifier_routes_each_line_once :
    ∀ respCap asyncCap (prefixes : List (List Char)) (hasCallback : Bool)
      (qs : QueueState) (line : List Char),
      (prefixes.any (fun p => p.isPrefixOf line) = true →
        processLine respCap asyncCap prefixes hasCallback qs line =
          ⟨⟨qs.responseQueue, tryEnqueue asyncCap qs.asyncEventQueue line⟩,
            if hasCallback then [line] else []⟩)
      ∧ (prefixes.any (fun p => p.isPrefixOf line) = false →
        processLine respCap asyncCap prefixes hasCallback qs line =
          ⟨⟨tryEnqueue respCap qs.responseQueue line, qs.asyncEventQueue⟩, []⟩) :=
  fun rc ac prefixes hcb qs line =>
    ⟨classifyLoop_matched rc ac hcb qs line prefixes,
     classifyLoop_unmatched rc ac hcb qs line prefixes⟩

/-- Witness for C6: prefix set `["+UUPSDA:"]` sends `"+UUPSDA: 0,0"` to
the async path with a hook call and `"OK"` to the response path. -/
theorem classifier_routes_each_line_once_witness :
    processLine 10 10 ["+UUPSDA:".toList] true ⟨[], []⟩ "+UUPSDA: 0,0".toList =
      ⟨⟨[], tryEnqueue 10 [] "+UUPSDA: 0,0".toList⟩, ["+UUPSDA: 0,0".toList]⟩
    ∧ processLine 10 10 ["+UUPSDA:".toList] true ⟨[], []⟩ "OK".toList =
      ⟨⟨tryEnqueue 10 [] "OK".toList, []⟩, []⟩ :=
  ⟨(classifier_routes_each_line_once 10 10 ["+UUPSDA:".toList] true ⟨[], []⟩
      "+UUPSDA: 0,0".toList).1 (by decide),
   (classifier_routes_each_line_once 10 10 ["+UUPSDA:".toList] true ⟨[], []⟩
      "OK".toList).2 (by decide)⟩

/-- Repeated non-blocking enqueues, as performed by the producer task. -/
def enqueueAll (cap : Nat) (q : List (List Char)) (xs : List (List Char)) : List (List Char) :=
  xs.foldl (tryEnqueue cap) q

theorem enqueueAll_of_le (cap : Nat) (xs : List (List Char)) :
    ∀ q : List (List Char), q.length ≤ cap →
      enqueueAll cap q xs = q ++ xs.take (cap - q.length) := by
  induction xs with
  | nil =>
    intro q h
    simp [enqueueAll]
  | cons x xs ih =>
    intro q h
    by_cases hlt : q.length < cap
    · have step : tryEnqueue cap q x = q ++ [x] := by simp [tryEnqueue, hlt]
      have hlen : (q ++ [x]).length ≤ cap := by simp; omega
      have hrec := ih (q ++ [x]) hlen
      have hsplit : cap - q.length = (cap - (q.length + 1)) + 1 := by omega
      simp only [enqueueAll, List.foldl_cons, step] at hrec ⊢
      rw [hrec, hsplit, List.take_succ_cons]
      simp
    · have heq : q.length = cap := by omega
      have step : tryEnqueue cap q x = q := by simp [tryEnqueue, hlt]
      have hrec := ih q h
      simp only [enqueueAll, List.foldl_cons, step] at hrec ⊢
      rw [hrec, heq]
      simp

/-- Claim C7: a bounded queue never evicts an already-queued line
(every enqueue leaves the old queue as a prefix), and producing `N+1`
lines into an empty queue of capacity `N` with no intervening pop
retains exactly the first `N` lines in arrival order, dropping the
`(N+1)`-th. -/
theorem bounded_queue_drop_newest :
    (∀ cap (q : List (List Char)) x, q.isPrefixOf (tryEnqueue cap q x) = true)
    ∧ (∀ cap (xs : List (List Char)), xs.length = cap + 1 →
        enqueueAll cap [] xs = xs.take cap) := by
  constructor
  · intro cap q x
    unfold tryEnqueue
    split
    · simp
    · simp
  · intro cap xs h
    have := enqueueAll_of_le cap xs [] (by simp)
    simpa using this

/-- Witness for C7: capacity 2, three lines produced, first two kept. -/
theorem bounded_queue_drop_newest_witness :
    enqueueAll 2 [] ["L1".toList, "L2".toList, "L3".toList] =
      (["L1".toList, "L2".toList, "L3".toList]).take 2 :=
  bounded_queue_drop_newest.2 2 ["L1".toList, "L2".toList, "L3".toList] (by decide)

theorem collectLoop_completed_ne_nil (ps : PromptState) (criteria : List (List Char))
    (startTime timeoutMs : Nat) :
    ∀ (pending : List Arrival) (now : Nat) (acc : List (List Char)),
      (collectLoop ps criteria startTime timeoutMs now pending acc).completed = true →
      (collectLoop ps criteria startTime timeoutMs now pending acc).lines ≠ [] := by
  intro pending
  induction pending with
  | nil =>
    intro now acc h
    rw [collectLoop] at h
    by_cases hg : now - startTime < timeoutMs <;> simp [hg] at h
  | cons a rest ih =>
    intro now acc h
    rw [collectLoop] at h ⊢
    by_cases hg : now - startTime < timeoutMs
    · by_cases ht : a.time ≤ now + timeoutMs
      · by_cases he : isEndOfResponse ps criteria a.line = true
        · simp [hg, ht, he] at h ⊢
        · simp only [hg, ht, he, if_pos, if_neg, if_true, if_false,
            Bool.false_eq_true] at h ⊢
          exact ih _ _ h
      · simp [hg, ht] at h
    · simp [hg] at h

theorem collectLoop_any_end (ps : PromptState) (criteria : List (List Char))
    (startTime timeoutMs : Nat) :
    ∀ (pending : List Arrival) (now : Nat) (acc : List (List Char)),
      (collectLoop ps criteria startTime timeoutMs now pending acc).lines.any
          (isEndOfResponse ps criteria) =
        ((collectLoop ps criteria startTime timeoutMs now pending acc).completed
          || acc.any (isEndOfResponse ps criteria)) := by
  intro pending
  induction pending with
  | nil =>
    intro now acc
    rw [collectLoop]
    by_cases hg : now - startTime < timeoutMs <;> simp [hg]
  | cons a rest ih =>
    intro now acc
    rw [collectLoop]
    by_cases hg : now - startTime < timeoutMs
    · by_cases ht : a.time ≤ now + timeoutMs
      · by_cases he : isEndOfResponse ps criteria a.line = true
        · simp [hg, ht, he]
        · simp only [hg, ht, he, if_pos, if_neg, if_true, if_false, Bool.false_eq_true]
          rw [ih]
          simp [he]
      · simp [hg, ht]
    · simp [hg]

theorem collectLoop_finish_le (ps : PromptState) (criteria : List (List Char))
    (startTime timeoutMs : Nat) :
    ∀ (pending : List Arrival) (now : Nat) (acc : List (List Char)),
      (collectLoop ps criteria startTime timeoutMs now pending acc).finish ≤
        max now (startTime + 2 * timeoutMs) := by
  intro pending
  induction pending with
  | nil =>
    intro now acc
    rw [collectLoop]
    by_cases hg : now - startTime < timeoutMs
    · simp only [hg, if_pos, if_true]
      have hb : now + timeoutMs ≤ startTime + 2 * timeoutMs := by omega
      exact le_trans hb (le_max_right _ _)
    · simp only [hg, if_neg, if_false]
      exact le_max_left _ _
  | cons a rest ih =>
    intro now acc
    rw [collectLoop]
    by_cases hg : now - startTime < timeoutMs
    · by_cases ht : a.time ≤ now + timeoutMs
      · by_cases he : isEndOfResponse ps criteria a.line = true
        · simp only [hg, ht, he, if_pos, if_true]
          have hb : max now a.time ≤ startTime + 2 * timeoutMs := by omega
          exact le_trans hb (le_max_right _ _)
        · simp only [hg, ht, he, if_pos, if_neg, if_true, if_false, Bool.false_eq_true]
          have hrec := ih (max now a.time) (acc ++ [a.line])
          have hb : max (max now a.time) (startTime + 2 * timeoutMs) ≤
              max now (startTime + 2 * timeoutMs) := by omega
          exact le_trans hrec hb
      · simp only [hg, ht, if_pos, if_neg, if_true, if_false]
        have hb : now + timeoutMs ≤ startTime + 2 * timeoutMs := by omega
        exact le_trans hb (le_max_right _ _)
    · simp only [hg, if_neg, if_false]
      exact le_max_left _ _

/-- Claim C1 (amended): when the deadline elapses after at least one
line was collected and no collected line satisfied the matcher,
`sendATCommandWithResponse` returns `true`, not `false` — its returned
boolean equals "the output vector is non-empty", the partial lines
staying visible in the vector. -/
theorem send_result_iff_lines_collected :
    ∀ ps criteria (command : List Char) (prior : List (List Char))
      (timeoutMs startTime : Nat) (pending : List Arrival),
      (sendATCommandWithResponse ps criteria command (some prior)
          timeoutMs startTime pending).result =
        !((sendATCommandWithResponse ps criteria command (some prior)
            timeoutMs startTime pending).vector.getD []).isEmpty := by
  intro ps criteria command prior T s pending
  simp only [sendATCommandWithResponse, Option.getD_some]
  by_cases hc : (collectLoop ps criteria s T s pending []).completed = true
  · have hne := collectLoop_completed_ne_nil ps criteria s T pending s [] hc
    simp [hc, List.isEmpty_iff, hne]
  · simp [hc]

/-- Counterexample to claim C1 as stated: end criteria
`["OK","ERROR","+CME ERROR:*","+CMS ERROR:*"]`, only `"+CREG: 2"`
arrives (at 1 ms) within a 5000 ms budget; no collected line matches,
yet the call returns `true` with the partial line in the vector,
whereas the claim requires `completed = false`. -/
theorem send_partial_returns_true_cx :
    (sendATCommandWithResponse ⟨false, '>'⟩
        ["OK".toList, "ERROR".toList, "+CME ERROR:*".toList, "+CMS ERROR:*".toList]
        "AT+CREG?".toList (some []) 5000 0 [⟨1, "+CREG: 2".toList⟩]).result = true
    ∧ (sendATCommandWithResponse ⟨false, '>'⟩
        ["OK".toList, "ERROR".toList, "+CME ERROR:*".toList, "+CMS ERROR:*".toList]
        "AT+CREG?".toList (some []) 5000 0 [⟨1, "+CREG: 2".toList⟩]).vector =
      some ["+CREG: 2".toList]
    ∧ isEndOfResponse ⟨false, '>'⟩
        ["OK".toList, "ERROR".toList, "+CME ERROR:*".toList, "+CMS ERROR:*".toList]
        "+CREG: 2".toList = false := by
  refine ⟨by decide, by decide, by decide⟩

/-- Claim C2 (amended): each pop receives a fresh full `timeoutMs`
budget measured from the pop's own start, and a new pop begins only
while the elapsed time since issuance is below `timeoutMs`, so a call
to `sendATCommandWithResponse` finishes no later than
`issueTime + 2·timeoutMs` (but may finish after
`issueTime + timeoutMs`). -/
theorem collector_finishes_within_twice_timeout :
    ∀ ps criteria (command : List Char) (responses : Option (List (List Char)))
      (timeoutMs startTime : Nat) (pending : List Arrival),
      (sendATCommandWithResponse ps criteria command responses
          timeoutMs startTime pending).finish ≤ startTime + 2 * timeoutMs := by
  intro ps criteria command responses T s pending
  cases responses with
  | none => simp [sendATCommandWithResponse]
  | some prior =>
    have h := collectLoop_finish_le ps criteria s T pending s []
    simp only [sendATCommandWithResponse]
    omega

/-- Counterexample to claim C2 as stated: with a 10 ms timeout issued
at time 0, a non-matching line at 9 ms re-enters the loop and the next
pop blocks with a fresh 10 ms budget until `"OK"` arrives at 15 ms —
past the claimed hard deadline `issueTime + timeoutMs = 10`. -/
theorem pop_past_deadline_cx :
    0 + 10 < (sendATCommandWithResponse ⟨false, '>'⟩
        ["OK".toList, "ERROR".toList, "+CME ERROR:*".toList, "+CMS ERROR:*".toList]
        "AT".toList (some []) 10 0
        [⟨9, "+CREG: 2".toList⟩, ⟨15, "OK".toList⟩]).finish := by decide

/-- Claim C3 (amended): `getResponses` returns `true` iff some popped
line satisfied the end-of-response matcher (the decisive pop may
complete after the nominal deadline); whenever the matcher fired on no
popped line it returns `false` regardless of how many lines were
collected, and the collected lines are still present in the caller's
vector. -/
theorem getResponses_result_iff_matcher :
    ∀ ps criteria (prior : List (List Char)) (timeoutMs startTime : Nat)
      (pending : List Arrival),
      (getResponses ps criteria (some prior) timeoutMs startTime pending).result =
        ((getResponses ps criteria (some prior) timeoutMs startTime pending).vector.getD
          []).any (isEndOfResponse ps criteria)
      ∧ (getResponses ps criteria (some prior) timeoutMs startTime pending).vector.isSome
        = true := by
  intro ps criteria prior T s pending
  refine ⟨?_, rfl⟩
  simp only [getResponses, Option.getD_some]
  have h := collectLoop_any_end ps criteria s T pending s []
  simpa using h.symm

/-- Counterexample to claim C3 as stated: 10 ms timeout from time 0;
the only line arriving by the deadline (`"+CREG: 2"` at 9 ms) does not
satisfy the matcher, so under the claim the call must return `false`;
the code pops `"OK"` at 15 ms — after the deadline — and returns
`true`. -/
theorem getResponses_true_without_predeadline_match_cx :
    (getResponses ⟨false, '>'⟩
        ["OK".toList, "ERROR".toList, "+CME ERROR:*".toList, "+CMS ERROR:*".toList]
        (some []) 10 0 [⟨9, "+CREG: 2".toList⟩, ⟨15, "OK".toList⟩]).result = true
    ∧ isEndOfResponse ⟨false, '>'⟩
        ["OK".toList, "ERROR".toList, "+CME ERROR:*".toList, "+CMS ERROR:*".toList]
        "+CREG: 2".toList = false
    ∧ 0 + 10 < (getResponses ⟨false, '>'⟩
        ["OK".toList, "ERROR".toList, "+CME ERROR:*".toList, "+CMS ERROR:*".toList]
        (some []) 10 0 [⟨9, "+CREG: 2".toList⟩, ⟨15, "OK".toList⟩]).finish := by
  refine ⟨by decide, by decide, by decide⟩

/-- Claim C8: calling either collector with a null output-vector
pointer returns `false` immediately: nothing is transmitted, no queue
is popped, no time passes, and the failure is a return value. -/
theorem null_output_rejected :
    ∀ ps criteria (command : List Char) (timeoutMs startTime : Nat) (pending : List Arrival),
      sendATCommandWithResponse ps criteria command none timeoutMs startTime pending =
        ⟨false, none, [], startTime, pending⟩
      ∧ getResponses ps criteria none timeoutMs startTime pending =
        ⟨false, none, [], startTime, pending⟩ :=
  fun _ _ _ _ _ _ => ⟨rfl, rfl⟩

/-- Claim C9: with a non-null vector both collectors clear the vector
before collecting: the final vector is exactly the collected lines,
independent of whatever the vector held before the call — also when the
call returns `false` having collected nothing. -/
theorem output_vector_cleared :
    ∀ ps criteria (command : List Char) (prior : List (List Char))
      (timeoutMs startTime : Nat) (pending : List Arrival),
      (sendATCommandWithResponse ps criteria command (some prior)
          timeoutMs startTime pending).vector =
        some (collectLoop ps criteria startTime timeoutMs startTime pending []).lines
      ∧ (getResponses ps criteria (some prior) timeoutMs startTime pending).vector =
        some (collectLoop ps criteria startTime timeoutMs startTime pending []).lines :=
  fun _ _ _ _ _ _ _ => ⟨rfl, rfl⟩

end CM01
